import Mathlib

/-!
Formal model of `discord_rss_bot.py` (class `DiscordRSSBot`).

The bot polls RSS feeds, filters out previously seen entries via a durable
store (`processed_posts.json`), caps how many new entries are posted per
feed per cycle, transforms each surviving entry with an AI call (with a
deterministic fallback), and posts the result to a Discord channel,
chunking oversized messages.

Python dictionaries are modelled as insertion-ordered association lists,
timestamps as rationals (seconds), and the external collaborators (HTTP
fetch, the two AI calls, the Discord channel) as oracle functions whose
`none` / `false` outcomes model the exceptional paths that the code
catches.  Each cycle returns, besides the updated store, a trace of the
observable actions it performed (fetches, entries entering the per-entry
pipeline, channel sends, file saves).
-/

namespace RSSBot

/-- Python dict lookup on an insertion-ordered association list. -/
def lookupA {β : Type} : List (String × β) → String → Option β
  | [], _ => none
  | (k, v) :: rest, key => if k = key then some v else lookupA rest key

/-- Python dict assignment `d[key] = v`: overwrite in place when the key is
present, otherwise append at the end (insertion order). -/
def setA {β : Type} : List (String × β) → String → β → List (String × β)
  | [], key, v => [(key, v)]
  | (k, w) :: rest, key, v =>
    if k = key then (key, v) :: rest else (k, w) :: setA rest key v

/-- A parsed RSS item as the bot consumes it (`feed.items` elements):
an optional guid, title, link, and optional description / summary bodies
(`none` models an absent attribute). -/
structure Item where
  guid : Option String
  title : String
  link : String
  description : Option String
  summary : Option String
deriving DecidableEq

/-- Line 186, `post_id = getattr(item, 'guid', item.link)`: the guid when
the item carries one, else the link. -/
def postId (item : Item) : String := item.guid.getD item.link

/-- One record of `processed_posts['posts']` (lines 190-194). -/
structure SeenRecord where
  title : String
  link : String
  processed_at : ℚ
deriving DecidableEq

/-- The store `self.processed_posts`: the seen-posts map plus the per-feed
last-check timestamps. -/
structure Store where
  posts : List (String × SeenRecord)
  last_check_times : List (String × ℚ)
deriving DecidableEq

/-- Bot configuration, read from the environment in `__init__`
(lines 25-38). -/
structure Config where
  check_interval : Nat
  max_posts_per_feed : Nat
  enable_validation : Bool
  rss_urls : List String

/-- External collaborators: feed fetch + parse, the validation AI call,
the transformation AI call, and the Discord channel.  `none` (resp.
`false`, for the channel / a send) models the failure outcome that the
code catches at the call site. -/
structure Oracles where
  fetch : String → Option (List Item)
  validate : String → String → String → Option String
  ai : String → String → String → Option String
  channelFound : Bool
  sendOk : String → Bool

/-- Observable actions of a cycle: a feed fetch, an entry entering the
per-entry pipeline (identified by its `post_id`), a `channel.send` of one
message part, and a save of the store to disk. -/
inductive Event where
  | fetch (url : String)
  | pipe (id : String)
  | send (part : String)
  | save (s : Store)
deriving DecidableEq

/-- Body extraction for the summary fallback (lines 213-214). -/
def summaryContent (item : Item) : String :=
  match item.summary with
  | some s => if s = "" then "" else s
  | none => ""

/-- Body extraction (lines 210-214): a non-empty description, else a
non-empty summary, else the empty string. -/
def entryContent (item : Item) : String :=
  match item.description with
  | some d => if d = "" then summaryContent item else d
  | none => summaryContent item

/-- Python character slice `s[:n]`. -/
def strTake (s : String) (n : Nat) : String := String.mk (s.data.take n)

/-- The deterministic fallback formatting in `process_with_ai`
(line 137): `f"🔥 **{title}**\n\n{content[:500]}...\n\n🔗 Read more: {link}"`. -/
def fallbackMessage (title content link : String) : String :=
  "🔥 **" ++ title ++ "**\n\n" ++ strTake content 500 ++
    "...\n\n🔗 Read more: " ++ link

/-- Model of `process_with_ai` (lines 99-137): the AI reply on success, the
fallback formatting on any failure. -/
def process_with_ai (o : Oracles) (title content link : String) : String :=
  match o.ai title content link with
  | some reply => reply
  | none => fallbackMessage title content link

/-- Model of `validate_content` (lines 265-300): interpret the AI verdict; on any
failure of the call, fail open (treat the content as valid). -/
def validate_content (o : Oracles) (title content link : String) :
    Bool × String :=
  match o.validate title content link with
  | some result =>
    if result = "VALID" then (true, "Content is valid for processing")
    else (false, result)
  | none => (true, "Validation failed, proceeding with processing")

/-- The apology / error phrases scanned for by `is_error_message`
(lines 304-315). -/
def error_indicators : List String :=
  ["I apologize", "I cannot access", "I notice the provided", "future date",
   "cannot accurately transform", "without the actual article content",
   "I\x27m unable to", "I don\x27t have access", "appears to be from a future",
   "I cannot provide"]

/-- Python `str.lower()`: character-wise lower-casing. -/
def strLower (s : String) : String := String.mk (s.data.map Char.toLower)

/-- Whether `p` is an initial segment of `s` (character lists). -/
def headMatches : List Char → List Char → Bool
  | [], _ => true
  | _ :: _, [] => false
  | a :: as, b :: bs => a = b && headMatches as bs

/-- Python substring test `p in s`, on character lists. -/
def containsSub (p : List Char) : List Char → Bool
  | [] => headMatches p []
  | c :: rest => headMatches p (c :: rest) || containsSub p rest

/-- Model of `is_error_message` (lines 302-318): case-insensitive substring scan
for any of the error indicators. -/
def is_error_message (message : String) : Bool :=
  error_indicators.any fun ind =>
    containsSub (strLower ind).data (strLower message).data

/-- Line 146, `[message[i:i+2000] for i in range(0, len(message), 2000)]`,
written with explicit fuel. -/
def chunksAux : Nat → List Char → List (List Char)
  | 0, _ => []
  | fuel + 1, cs =>
    if cs.isEmpty then [] else cs.take 2000 :: chunksAux fuel (cs.drop 2000)

/-- The parts a long message is split into (line 146). -/
def messageParts (message : String) : List String :=
  (chunksAux message.data.length message.data).map String.mk

/-- Sequential `channel.send` calls (lines 147-148); an exception on one
part is caught in `send_to_discord` and stops the remaining parts. -/
def sendParts (o : Oracles) : List String → List Event
  | [] => []
  | p :: ps => if o.sendOk p then Event.send p :: sendParts o ps else []

/-- Model of `send_to_discord` (lines 139-155): chunk when over 2000 characters,
otherwise send the whole message; nothing happens when the channel is not
found. -/
def send_to_discord (o : Oracles) (message : String) : List Event :=
  if o.channelFound then
    if 2000 < message.length then sendParts o (messageParts message)
    else sendParts o [message]
  else []

/-- The per-entry pipeline body (lines 208-244) for one surviving entry:
body extraction, optional validation (skip on an invalid verdict),
AI transformation, the error-message check (skip on a match), then the
Discord send. -/
def processEntry (cfg : Config) (o : Oracles) (item : Item) : List Event :=
  Event.pipe (postId item) ::
    (if cfg.enable_validation &&
        !(validate_content o item.title (entryContent item) item.link).1 then
      []
    else if is_error_message
        (process_with_ai o item.title (entryContent item) item.link) then
      []
    else
      send_to_discord o
        (process_with_ai o item.title (entryContent item) item.link))

/-- The loop `for item in new_posts: ...` (lines 208-244). -/
def processEntries (cfg : Config) (o : Oracles) : List Item → List Event
  | [] => []
  | item :: rest => processEntry cfg o item ++ processEntries cfg o rest

/-- The novelty-filtering pass (lines 184-194): walk the fetched items in
feed order; each item whose `post_id` is absent from the posts map is
collected as new and immediately recorded into the map. -/
def filterNew (t : ℚ) : List Item → List (String × SeenRecord) →
    List Item × List (String × SeenRecord)
  | [], posts => ([], posts)
  | item :: rest, posts =>
    if (lookupA posts (postId item)).isSome then
      filterNew t rest posts
    else
      let r := filterNew t rest
        (posts ++ [(postId item, ⟨item.title, item.link, t⟩)])
      (item :: r.1, r.2)

/-- The per-feed throttle test (lines 166-173): a recorded last check
exists and fewer minutes than the configured interval have elapsed. -/
def throttled (cfg : Config) (t : ℚ) (s : Store) (url : String) : Bool :=
  match lookupA s.last_check_times url with
  | some last => decide ((t - last) / 60 < (cfg.check_interval : ℚ))
  | none => false

/-- Model of `fetch_rss_feed` (lines 88-97): the oracle's parse result, `none` on
any failure. -/
def fetch_rss_feed (o : Oracles) (url : String) : Option (List Item) :=
  o.fetch url

/-- The capped `new_posts` list for one feed evaluation (lines 196-204):
the first-run cap of 3 when the whole posts map is no larger than the
new-entry list, else the configured per-feed maximum. -/
def cappedNew (cfg : Config) (t : ℚ) (posts : List (String × SeenRecord))
    (items : List Item) : List Item :=
  if (filterNew t items posts).2.length ≤ (filterNew t items posts).1.length
  then (filterNew t items posts).1.take 3
  else (filterNew t items posts).1.take cfg.max_posts_per_feed

/-- One iteration of the feed loop body (lines 164-253) for one URL:
throttle, fetch, novelty filter, first-run / steady-state cap, per-entry
pipeline, saves and the last-check update. -/
def processFeed (cfg : Config) (o : Oracles) (t : ℚ) (s : Store)
    (url : String) : Store × List Event :=
  if throttled cfg t s url then (s, [])
  else
    match fetch_rss_feed o url with
    | none =>
      ({ s with last_check_times := setA s.last_check_times url t },
        [Event.fetch url])
    | some items =>
      if items.isEmpty then
        ({ s with last_check_times := setA s.last_check_times url t },
          [Event.fetch url])
      else
        let new_posts := cappedNew cfg t s.posts items
        let s1 : Store := { s with posts := (filterNew t items s.posts).2 }
        if new_posts.isEmpty then
          let s2 : Store :=
            { s1 with last_check_times := setA s1.last_check_times url t }
          (s2, [Event.fetch url, Event.save s2])
        else
          let s2 : Store :=
            { s1 with last_check_times := setA s1.last_check_times url t }
          (s2, Event.fetch url :: processEntries cfg o new_posts ++
            [Event.save s1, Event.save s2])

/-- The loop `for url in self.rss_urls: ...` (lines 164-253). -/
def runFeeds (cfg : Config) (o : Oracles) (t : ℚ) :
    List String → Store → Store × List Event
  | [], s => (s, [])
  | url :: rest, s =>
    let r := processFeed cfg o t s url
    let r2 := runFeeds cfg o t rest r.1
    (r2.1, r.2 ++ r2.2)

/-- One full cycle of `rss_checker` (lines 157-256) at wall-clock time
`t`, over the configured feed URLs. -/
def rss_checker (cfg : Config) (o : Oracles) (t : ℚ) (s : Store) :
    Store × List Event :=
  runFeeds cfg o t cfg.rss_urls s

/-- Runs `n` consecutive cycles; cycle `k` runs with oracles `os k` at time
`ts k`. -/
def iterateCycles (cfg : Config) (os : Nat → Oracles) (ts : Nat → ℚ) :
    Nat → Store → Store
  | 0, s => s
  | n + 1, s =>
    (rss_checker cfg (os n) (ts n) (iterateCycles cfg os ts n s)).1

/-- JSON values as stored in `processed_posts.json` (objects and strings
suffice for the documents the bot reads and writes). -/
inductive JVal where
  | jstr (s : String)
  | jobj (fields : List (String × JVal))

/-- Model of `load_processed_posts` (lines 51-67): `fileExists` is
`os.path.exists`; `parsed` is the parsed document, `none` standing for a
read or parse failure.  A document without a `posts` key is migrated by
wrapping; any failure yields the empty store. -/
def load_processed_posts (fileExists : Bool)
    (parsed : Option (List (String × JVal))) : List (String × JVal) :=
  if fileExists then
    match parsed with
    | some fields =>
      if (lookupA fields "posts").isSome then fields
      else [("posts", JVal.jobj fields), ("last_check_times", JVal.jobj [])]
    | none => [("posts", JVal.jobj []), ("last_check_times", JVal.jobj [])]
  else [("posts", JVal.jobj []), ("last_check_times", JVal.jobj [])]

/-- The identities of the entries that entered the per-entry pipeline, in
order. -/
def pipeIds : List Event → List String
  | [] => []
  | Event.pipe i :: rest => i :: pipeIds rest
  | _ :: rest => pipeIds rest

/-- How many `channel.send` calls a trace contains. -/
def sendCount (evs : List Event) : Nat :=
  evs.countP fun e => match e with | Event.send _ => true | _ => false

/-- How many store saves a trace contains. -/
def saveCount (evs : List Event) : Nat :=
  evs.countP fun e => match e with | Event.save _ => true | _ => false

/-! ### Concrete fixtures used in witness and counterexample theorems -/

/-- An oracle bundle where every external call fails. -/
def oAllFail : Oracles :=
  { fetch := fun _ => none, validate := fun _ _ _ => none,
    ai := fun _ _ _ => none, channelFound := true, sendOk := fun _ => true }

def itemA : Item := ⟨some "g1", "tA", "http://a", some "dA", none⟩

def itemB : Item := ⟨none, "tB", "http://b", none, some "sB"⟩

def itemsFive : List Item :=
  [⟨some "g1", "t1", "l1", some "d1", none⟩,
   ⟨some "g2", "t2", "l2", some "d2", none⟩,
   ⟨some "g3", "t3", "l3", some "d3", none⟩,
   ⟨some "g4", "t4", "l4", some "d4", none⟩,
   ⟨some "g5", "t5", "l5", some "d5", none⟩]

/-- An oracle bundle: every fetch yields the five fixture items, the AI
always replies `"ok"`, and the channel works. -/
def oFive : Oracles :=
  { fetch := fun _ => some itemsFive, validate := fun _ _ _ => none,
    ai := fun _ _ _ => some "ok", channelFound := true, sendOk := fun _ => true }

/-- An oracle bundle: every fetch yields `[itemA]`, the AI always replies
`"ok"`, and the channel works. -/
def oFetchOne : Oracles :=
  { fetch := fun _ => some [itemA], validate := fun _ _ _ => none,
    ai := fun _ _ _ => some "ok", channelFound := true, sendOk := fun _ => true }

def cfgBase : Config := ⟨60, 2, false, ["u"]⟩

def cfgVal : Config := ⟨60, 2, true, ["u"]⟩

def storeEmpty : Store := ⟨[], []⟩

def storeOld : Store := ⟨[("old", ⟨"t0", "l0", 0⟩)], []⟩

def storeSeen : Store := ⟨[("g1", ⟨"t1", "l1", 0⟩)], []⟩

def storeThrottle : Store := ⟨[], [("u", 0)]⟩

def itemApology : Item :=
  ⟨some "g", "I apologize", "http://x", some "body", none⟩

def legacyDoc : List (String × JVal) :=
  [("guid1", JVal.jobj [("title", JVal.jstr "x")])]

/-- A legacy-shaped document whose single entry identity is the literal
string `"posts"`. -/
def legacyPostsKeyDoc : List (String × JVal) :=
  [("posts", JVal.jobj [("title", JVal.jstr "x")])]

def cfgTwo : Config := ⟨60, 2, true, ["u", "v"]⟩

def itemHello : Item := ⟨some "h", "Hello", "http://h", some "world", none⟩

/-! ### Association-list lemmas -/

theorem lookupA_append_left {β : Type} (m l : List (String × β)) (k : String)
    (h : (lookupA m k).isSome = true) : lookupA (m ++ l) k = lookupA m k := by
  induction m with
  | nil => simp [lookupA] at h
  | cons p rest ih =>
    obtain ⟨a, b⟩ := p
    simp only [List.cons_append, lookupA] at h ⊢
    by_cases hak : a = k
    · simp [hak]
    · simp only [if_neg hak] at h ⊢
      exact ih h

theorem lookupA_append_none {β : Type} (m l : List (String × β)) (k : String)
    (h : lookupA m k = none) : lookupA (m ++ l) k = lookupA l k := by
  induction m with
  | nil => simp
  | cons p rest ih =>
    obtain ⟨a, b⟩ := p
    simp only [List.cons_append, lookupA] at h ⊢
    by_cases hak : a = k
    · simp [hak] at h
    · simp only [if_neg hak] at h ⊢
      exact ih h

theorem lookupA_setA_self {β : Type} (m : List (String × β)) (k : String)
    (v : β) : lookupA (setA m k v) k = some v := by
  induction m with
  | nil => simp [setA, lookupA]
  | cons p rest ih =>
    obtain ⟨a, b⟩ := p
    by_cases hak : a = k
    · simp [setA, lookupA, hak]
    · simp [setA, lookupA, hak, ih]

theorem lookupA_setA_ne {β : Type} (m : List (String × β)) (k k' : String)
    (v : β) (h : k' ≠ k) : lookupA (setA m k v) k' = lookupA m k' := by
  have hkk : ¬ k = k' := fun hh => h hh.symm
  induction m with
  | nil => simp [setA, lookupA, hkk]
  | cons p rest ih =>
    obtain ⟨a, b⟩ := p
    by_cases hak : a = k
    · subst hak
      have hk' : ¬ a = k' := fun hh => h hh.symm
      simp [setA, lookupA, hk']
    · by_cases hak' : a = k'
      · simp [setA, lookupA, hak, hak', hkk, h]
      · simp [setA, lookupA, hak, hak', ih]

/-! ### Novelty-filter lemmas -/

/-- The filtering pass only appends to the posts map. -/
theorem filterNew_posts_eq (t : ℚ) (items : List Item)
    (posts : List (String × SeenRecord)) :
    ∃ ext, (filterNew t items posts).2 = posts ++ ext := by
  induction items generalizing posts with
  | nil => exact ⟨[], by simp [filterNew]⟩
  | cons item rest ih =>
    by_cases hs : (lookupA posts (postId item)).isSome = true
    · simpa [filterNew, hs] using ih posts
    · obtain ⟨ext, hext⟩ :=
        ih (posts ++ [(postId item, ⟨item.title, item.link, t⟩)])
      exact ⟨(postId item, ⟨item.title, item.link, t⟩) :: ext, by
        simp [filterNew, hs, hext]⟩

/-- A key already present keeps its binding across the filtering pass. -/
theorem filterNew_lookup_mono (t : ℚ) (items : List Item)
    (posts : List (String × SeenRecord)) (k : String)
    (h : (lookupA posts k).isSome = true) :
    lookupA (filterNew t items posts).2 k = lookupA posts k := by
  obtain ⟨ext, hext⟩ := filterNew_posts_eq t items posts
  rw [hext]
  exact lookupA_append_left posts ext k h

/-- Each new entry adds exactly one binding to the posts map. -/
theorem filterNew_length (t : ℚ) (items : List Item)
    (posts : List (String × SeenRecord)) :
    (filterNew t items posts).2.length =
      posts.length + (filterNew t items posts).1.length := by
  induction items generalizing posts with
  | nil => simp [filterNew]
  | cons item rest ih =>
    by_cases hs : (lookupA posts (postId item)).isSome = true
    · simpa [filterNew, hs] using ih posts
    · have := ih (posts ++ [(postId item, ⟨item.title, item.link, t⟩)])
      simp only [filterNew, hs, if_neg, Bool.false_eq_true, not_false_iff,
        List.length_append, List.length_cons] at this ⊢
      simp [this]
      omega

/-- Every entry returned as new by the filtering pass is recorded in the
posts map the pass returns. -/
theorem filterNew_records (t : ℚ) (items : List Item)
    (posts : List (String × SeenRecord)) :
    ∀ it ∈ (filterNew t items posts).1,
      (lookupA (filterNew t items posts).2 (postId it)).isSome = true := by
  induction items generalizing posts with
  | nil => simp [filterNew]
  | cons item rest ih =>
    intro it hit
    by_cases hs : (lookupA posts (postId item)).isSome = true
    · simp only [filterNew, hs, if_pos] at hit ⊢
      exact ih posts it hit
    · simp only [filterNew, hs, Bool.false_eq_true, if_neg,
        not_false_iff, List.mem_cons] at hit ⊢
      rcases hit with hit | hit
      · subst hit
        have hbase :
            lookupA (posts ++ [(postId it, ⟨it.title, it.link, t⟩)])
              (postId it) = some ⟨it.title, it.link, t⟩ := by
          rw [lookupA_append_none]
          · simp [lookupA]
          · cases hmk : lookupA posts (postId it) <;> simp [hmk] at hs ⊢
        rw [filterNew_lookup_mono t rest _ (postId it) (by simp [hbase])]
        simp [hbase]
      · exact ih _ it hit

/-- A key already present in the posts map is never among the new
entries of the filtering pass. -/
theorem filterNew_fresh (t : ℚ) (items : List Item)
    (posts : List (String × SeenRecord)) (k : String)
    (h : (lookupA posts k).isSome = true) :
    ∀ it ∈ (filterNew t items posts).1, postId it ≠ k := by
  induction items generalizing posts with
  | nil => simp [filterNew]
  | cons item rest ih =>
    intro it hit
    by_cases hs : (lookupA posts (postId item)).isSome = true
    · simp only [filterNew, hs, if_pos] at hit
      exact ih posts h it hit
    · simp only [filterNew, hs, Bool.false_eq_true, if_neg,
        not_false_iff, List.mem_cons] at hit
      rcases hit with hit | hit
      · subst hit
        intro hk
        rw [hk] at hs
        exact hs h
      · refine ih (posts ++ [(postId item, ⟨item.title, item.link, t⟩)]) ?_ it hit
        rw [lookupA_append_left posts _ k h]
        exact h

/-! ### Trace lemmas -/

theorem pipeIds_append (a b : List Event) :
    pipeIds (a ++ b) = pipeIds a ++ pipeIds b := by
  induction a with
  | nil => simp [pipeIds]
  | cons e rest ih => cases e <;> simp [pipeIds, ih]

theorem pipeIds_sendParts (o : Oracles) (l : List String) :
    pipeIds (sendParts o l) = [] := by
  induction l with
  | nil => simp [sendParts, pipeIds]
  | cons p ps ih =>
    by_cases h : o.sendOk p = true <;> simp [sendParts, h, pipeIds, ih]

theorem pipeIds_send_to_discord (o : Oracles) (m : String) :
    pipeIds (send_to_discord o m) = [] := by
  unfold send_to_discord
  by_cases hc : o.channelFound = true
  · by_cases hl : 2000 < m.length <;>
      simp [hc, hl, pipeIds_sendParts]
  · simp [hc, pipeIds]

theorem pipeIds_processEntry (cfg : Config) (o : Oracles) (item : Item) :
    pipeIds (processEntry cfg o item) = [postId item] := by
  unfold processEntry
  split
  · simp [pipeIds]
  · split
    · simp [pipeIds]
    · simp [pipeIds, pipeIds_send_to_discord]

theorem pipeIds_processEntries (cfg : Config) (o : Oracles)
    (items : List Item) :
    pipeIds (processEntries cfg o items) = items.map postId := by
  induction items with
  | nil => simp [processEntries, pipeIds]
  | cons item rest ih =>
    simp [processEntries, pipeIds_append, pipeIds_processEntry, ih]

theorem pipe_mem_pipeIds (k : String) (evs : List Event)
    (h : Event.pipe k ∈ evs) : k ∈ pipeIds evs := by
  induction evs with
  | nil => simp at h
  | cons e rest ih =>
    rcases List.mem_cons.mp h with he | he
    · subst he; simp [pipeIds]
    · cases e <;> simp [pipeIds, ih he]

theorem sendCount_append (a b : List Event) :
    sendCount (a ++ b) = sendCount a + sendCount b := by
  simp [sendCount, List.countP_append]

theorem sendCount_processEntries (cfg : Config) (o : Oracles)
    (items : List Item) :
    sendCount (processEntries cfg o items) =
      (items.map fun item => sendCount (processEntry cfg o item)).sum := by
  induction items with
  | nil => simp [processEntries, sendCount]
  | cons item rest ih => simp [processEntries, sendCount_append, ih]

/-! ### Feed-level lemmas -/

/-- The throttle decision only looks at the feed's own last-check
timestamp. -/
theorem throttled_congr (cfg : Config) (t : ℚ) (s s' : Store) (url : String)
    (h : lookupA s'.last_check_times url = lookupA s.last_check_times url) :
    throttled cfg t s' url = throttled cfg t s url := by
  unfold throttled
  rw [h]

/-- Processing one feed leaves every already-present posts binding
unchanged. -/
theorem processFeed_posts_mono (cfg : Config) (o : Oracles) (t : ℚ)
    (s : Store) (url : String) (k : String)
    (h : (lookupA s.posts k).isSome = true) :
    lookupA (processFeed cfg o t s url).1.posts k = lookupA s.posts k := by
  unfold processFeed
  split
  · rfl
  · cases hfetch : fetch_rss_feed o url with
    | none => simp
    | some items =>
      by_cases hempty : items.isEmpty = true
      · simp [hempty]
      · simp only [hempty, Bool.false_eq_true, if_neg, not_false_iff]
        split <;> exact filterNew_lookup_mono t items s.posts k h

/-- Processing one feed never pipes an identity already present in the
posts map. -/
theorem processFeed_no_pipe (cfg : Config) (o : Oracles) (t : ℚ)
    (s : Store) (url : String) (k : String)
    (h : (lookupA s.posts k).isSome = true) :
    Event.pipe k ∉ (processFeed cfg o t s url).2 := by
  unfold processFeed
  split
  · simp
  · cases hfetch : fetch_rss_feed o url with
    | none => simp
    | some items =>
      by_cases hempty : items.isEmpty = true
      · simp [hempty]
      · simp only [hempty, Bool.false_eq_true, if_neg, not_false_iff]
        have hfresh := filterNew_fresh t items s.posts k h
        have hnp : ∀ caps : List Item,
            (∀ it ∈ caps, it ∈ (filterNew t items s.posts).1) →
            Event.pipe k ∉ processEntries cfg o caps := by
          intro caps hsub hmem
          have hk := pipe_mem_pipeIds k _ hmem
          rw [pipeIds_processEntries] at hk
          obtain ⟨it, hit, hpid⟩ := List.mem_map.mp hk
          exact hfresh it (hsub it hit) hpid
        have hcap : ∀ it ∈ cappedNew cfg t s.posts items,
            it ∈ (filterNew t items s.posts).1 := by
          intro it hit
          unfold cappedNew at hit
          split at hit <;> exact List.take_subset _ _ hit
        split
        · simp
        · intro hmem
          rcases List.mem_cons.mp hmem with he | hmem
          · exact Event.noConfusion he
          rcases List.mem_append.mp hmem with hmem | hmem
          · exact hnp _ hcap hmem
          · simp at hmem

/-- Processing a feed leaves the last-check timestamps of other feeds
unchanged. -/
theorem processFeed_lastcheck_other (cfg : Config) (o : Oracles) (t : ℚ)
    (s : Store) (url v : String) (h : v ≠ url) :
    lookupA (processFeed cfg o t s url).1.last_check_times v =
      lookupA s.last_check_times v := by
  unfold processFeed
  split
  · rfl
  · cases hfetch : fetch_rss_feed o url with
    | none => simpa using lookupA_setA_ne s.last_check_times url v t h
    | some items =>
      by_cases hempty : items.isEmpty = true
      · simpa [hempty] using lookupA_setA_ne s.last_check_times url v t h
      · simp only [hempty, Bool.false_eq_true, if_neg, not_false_iff]
        split <;> exact lookupA_setA_ne s.last_check_times url v t h

/-- A non-throttled feed gets its last-check timestamp set to the cycle
time, whatever the oracles do. -/
theorem processFeed_lastcheck_self (cfg : Config) (o : Oracles) (t : ℚ)
    (s : Store) (url : String) (h : throttled cfg t s url = false) :
    lookupA (processFeed cfg o t s url).1.last_check_times url = some t := by
  unfold processFeed
  rw [h]
  simp only [Bool.false_eq_true, if_neg, not_false_iff]
  cases hfetch : fetch_rss_feed o url with
  | none => simpa using lookupA_setA_self s.last_check_times url t
  | some items =>
    by_cases hempty : items.isEmpty = true
    · simpa [hempty] using lookupA_setA_self s.last_check_times url t
    · simp only [hempty, Bool.false_eq_true, if_neg, not_false_iff]
      split <;> exact lookupA_setA_self s.last_check_times url t

/-- A non-throttled feed is fetched, whatever the oracles do. -/
theorem processFeed_fetch_mem (cfg : Config) (o : Oracles) (t : ℚ)
    (s : Store) (url : String) (h : throttled cfg t s url = false) :
    Event.fetch url ∈ (processFeed cfg o t s url).2 := by
  unfold processFeed
  rw [h]
  simp only [Bool.false_eq_true, if_neg, not_false_iff]
  cases hfetch : fetch_rss_feed o url with
  | none => simp
  | some items =>
    by_cases hempty : items.isEmpty = true
    · simp [hempty]
    · simp only [hempty, Bool.false_eq_true, if_neg, not_false_iff]
      split <;> simp

/-- Later feeds of a cycle leave a URL they do not mention untouched. -/
theorem runFeeds_lastcheck_other (cfg : Config) (o : Oracles) (t : ℚ)
    (urls : List String) (s : Store) (u : String) (h : u ∉ urls) :
    lookupA (runFeeds cfg o t urls s).1.last_check_times u =
      lookupA s.last_check_times u := by
  induction urls generalizing s with
  | nil => rfl
  | cons v rest ih =>
    have hvu : u ≠ v := fun hh => h (by simp [hh])
    have hrest : u ∉ rest := fun hh => h (by simp [hh])
    simp only [runFeeds]
    rw [ih _ hrest]
    exact processFeed_lastcheck_other cfg o t s v u hvu

/-- Already-present posts bindings survive a whole cycle. -/
theorem runFeeds_posts_mono (cfg : Config) (o : Oracles) (t : ℚ)
    (urls : List String) (s : Store) (k : String)
    (h : (lookupA s.posts k).isSome = true) :
    lookupA (runFeeds cfg o t urls s).1.posts k = lookupA s.posts k := by
  induction urls generalizing s with
  | nil => rfl
  | cons v rest ih =>
    simp only [runFeeds]
    have h1 := processFeed_posts_mono cfg o t s v k h
    rw [ih _ (by rw [h1]; exact h), h1]

/-- A whole cycle never pipes an identity already present in the posts
map. -/
theorem runFeeds_no_pipe (cfg : Config) (o : Oracles) (t : ℚ)
    (urls : List String) (s : Store) (k : String)
    (h : (lookupA s.posts k).isSome = true) :
    Event.pipe k ∉ (runFeeds cfg o t urls s).2 := by
  induction urls generalizing s with
  | nil => simp [runFeeds]
  | cons v rest ih =>
    simp only [runFeeds]
    intro hmem
    rcases List.mem_append.mp hmem with hmem | hmem
    · exact processFeed_no_pipe cfg o t s v k h hmem
    · have h1 := processFeed_posts_mono cfg o t s v k h
      exact ih _ (by rw [h1]; exact h) hmem

/-- Posts bindings survive any number of cycles. -/
theorem iterateCycles_posts_mono (cfg : Config) (os : Nat → Oracles)
    (ts : Nat → ℚ) (n : Nat) (s : Store) (k : String)
    (h : (lookupA s.posts k).isSome = true) :
    lookupA (iterateCycles cfg os ts n s).posts k = lookupA s.posts k := by
  induction n with
  | zero => rfl
  | succ m ih =>
    simp only [iterateCycles, rss_checker]
    rw [runFeeds_posts_mono cfg (os m) (ts m) cfg.rss_urls _ k (by rw [ih]; exact h), ih]

/-! ### Chunking lemmas -/

theorem chunksAux_join (fuel : Nat) (cs : List Char)
    (h : cs.length ≤ fuel) : (chunksAux fuel cs).flatten = cs := by
  induction fuel generalizing cs with
  | zero =>
    have : cs = [] := List.length_eq_zero.mp (Nat.le_zero.mp h)
    simp [this, chunksAux]
  | succ m ih =>
    by_cases hcs : cs.isEmpty = true
    · simp [chunksAux, hcs, List.isEmpty_iff.mp hcs]
    · have hlen : (cs.drop 2000).length ≤ m := by
        have h1 : 1 ≤ cs.length := by
          cases cs with
          | nil => simp at hcs
          | cons a l => simp
        simp only [List.length_drop]
        omega
      simp [chunksAux, hcs, ih _ hlen]

theorem chunksAux_mem_length (fuel : Nat) (cs : List Char)
    (c : List Char) (h : c ∈ chunksAux fuel cs) : c.length ≤ 2000 := by
  induction fuel generalizing cs with
  | zero => simp [chunksAux] at h
  | succ m ih =>
    by_cases hcs : cs.isEmpty = true
    · simp [chunksAux, hcs] at h
    · simp only [chunksAux, hcs, Bool.false_eq_true, if_neg,
        not_false_iff, List.mem_cons] at h
      rcases h with h | h
      · subst h
        simp
      · exact ih _ h

theorem chunksAux_count (fuel : Nat) (cs : List Char)
    (h : cs.length ≤ fuel) :
    (chunksAux fuel cs).length = (cs.length + 1999) / 2000 := by
  induction fuel generalizing cs with
  | zero =>
    have : cs = [] := List.length_eq_zero.mp (Nat.le_zero.mp h)
    simp [this, chunksAux]
  | succ m ih =>
    by_cases hcs : cs.isEmpty = true
    · simp [chunksAux, hcs, List.isEmpty_iff.mp hcs]
    · have h1 : 1 ≤ cs.length := by
        cases cs with
        | nil => simp at hcs
        | cons a l => simp
      have hlen : (cs.drop 2000).length ≤ m := by
        simp only [List.length_drop]; omega
      simp only [chunksAux, hcs, Bool.false_eq_true, if_neg,
        not_false_iff, List.length_cons, ih _ hlen, List.length_drop]
      by_cases hbig : 2000 < cs.length
      · have : cs.length - 2000 + 1999 + 2000 = cs.length + 1999 := by omega
        rw [← this, Nat.add_div_right _ (by norm_num)]
      · have hz : cs.length - 2000 = 0 := by omega
        rw [hz]
        have hlo : 2000 ≤ cs.length + 1999 := by omega
        have hhi : cs.length + 1999 < 4000 := by omega
        omega

/-! ### String bridge lemmas -/

theorem string_data_append (a b : String) :
    (a ++ b).data = a.data ++ b.data := rfl

theorem string_mk_append (a b : List Char) :
    String.mk a ++ String.mk b = String.mk (a ++ b) := rfl

theorem string_join_map_mk (l : List (List Char)) :
    String.join (l.map String.mk) = String.mk l.flatten := by
  have key : ∀ (l : List (List Char)) (acc : List Char),
      List.foldl (fun r s => r ++ s) (String.mk acc) (l.map String.mk) =
        String.mk (acc ++ l.flatten) := by
    intro l
    induction l with
    | nil => intro acc; simp
    | cons x xs ih =>
      intro acc
      simp only [List.map_cons, List.foldl_cons, List.flatten_cons]
      rw [string_mk_append, ih (acc ++ x)]
      simp
  have h0 : ("" : String) = String.mk [] := rfl
  simpa [String.join, h0] using key l []

theorem messageParts_join (message : String) :
    String.join (messageParts message) = message := by
  unfold messageParts
  rw [string_join_map_mk, chunksAux_join _ _ (Nat.le_refl _)]

theorem messageParts_length_le (message : String) :
    ∀ part ∈ messageParts message, part.length ≤ 2000 := by
  intro part hpart
  unfold messageParts at hpart
  obtain ⟨c, hc, hmk⟩ := List.mem_map.mp hpart
  subst hmk
  exact chunksAux_mem_length _ _ c hc

theorem messageParts_count (message : String) :
    (messageParts message).length = (message.length + 1999) / 2000 := by
  unfold messageParts
  rw [List.length_map, chunksAux_count _ _ (Nat.le_refl _)]
  rfl

/-! ### Cap and trace-shape lemmas -/

/-- The first-run branch of the cap is taken exactly when the posts map
was empty before the filtering pass. -/
theorem cappedNew_eq (cfg : Config) (t : ℚ)
    (posts : List (String × SeenRecord)) (items : List Item) :
    cappedNew cfg t posts items =
      if posts = [] then (filterNew t items posts).1.take 3
      else (filterNew t items posts).1.take cfg.max_posts_per_feed := by
  unfold cappedNew
  have hlen := filterNew_length t items posts
  by_cases hp : posts = []
  · have hc : (filterNew t items posts).2.length ≤
        (filterNew t items posts).1.length := by
      rw [hlen, hp]; simp
    rw [if_pos hc, if_pos hp]
  · have hpl : 0 < posts.length := List.length_pos.mpr hp
    have hc : ¬ (filterNew t items posts).2.length ≤
        (filterNew t items posts).1.length := by
      rw [hlen]; omega
    rw [if_neg hc, if_neg hp]

theorem cappedNew_subset (cfg : Config) (t : ℚ)
    (posts : List (String × SeenRecord)) (items : List Item) :
    ∀ it ∈ cappedNew cfg t posts items, it ∈ (filterNew t items posts).1 := by
  intro it hit
  unfold cappedNew at hit
  split at hit <;> exact List.take_subset _ _ hit

/-- The resulting store of a successful feed evaluation: the filter's
posts map and the updated last-check timestamp. -/
theorem processFeed_store_main (cfg : Config) (o : Oracles) (t : ℚ)
    (s : Store) (url : String) (items : List Item)
    (hth : throttled cfg t s url = false)
    (hf : o.fetch url = some items) (hne : items.isEmpty = false) :
    (processFeed cfg o t s url).1 =
      { posts := (filterNew t items s.posts).2,
        last_check_times := setA s.last_check_times url t } := by
  unfold processFeed
  rw [hth]
  have hfr : fetch_rss_feed o url = some items := hf
  rw [hfr]
  simp only [Bool.false_eq_true, if_neg, not_false_iff, hne]
  split <;> rfl

/-- The pipelined entries of a successful feed evaluation are exactly the
capped new posts. -/
theorem processFeed_pipeIds (cfg : Config) (o : Oracles) (t : ℚ)
    (s : Store) (url : String) (items : List Item)
    (hth : throttled cfg t s url = false)
    (hf : o.fetch url = some items) (hne : items.isEmpty = false) :
    pipeIds (processFeed cfg o t s url).2 =
      (cappedNew cfg t s.posts items).map postId := by
  unfold processFeed
  rw [hth]
  have hfr : fetch_rss_feed o url = some items := hf
  rw [hfr]
  simp only [Bool.false_eq_true, if_neg, not_false_iff, hne]
  split
  · next hcap =>
    rw [List.isEmpty_iff.mp hcap]
    simp [pipeIds]
  · simp [pipeIds, pipeIds_append, pipeIds_processEntries]

/-- The trace of a successful feed evaluation, in order: the fetch, the
per-entry events, a save of the posts-mutated store, and a save of the
final store after the last-check update (no middle save when no entry
survived the cap). -/
theorem processFeed_trace_main (cfg : Config) (o : Oracles) (t : ℚ)
    (s : Store) (url : String) (items : List Item)
    (hth : throttled cfg t s url = false)
    (hf : o.fetch url = some items) (hne : items.isEmpty = false) :
    (cappedNew cfg t s.posts items ≠ [] →
      (processFeed cfg o t s url).2 =
        Event.fetch url ::
          processEntries cfg o (cappedNew cfg t s.posts items) ++
          [Event.save { posts := (filterNew t items s.posts).2,
                        last_check_times := s.last_check_times },
           Event.save { posts := (filterNew t items s.posts).2,
                        last_check_times := setA s.last_check_times url t }]) ∧
    (cappedNew cfg t s.posts items = [] →
      (processFeed cfg o t s url).2 =
        [Event.fetch url,
         Event.save { posts := (filterNew t items s.posts).2,
                      last_check_times := setA s.last_check_times url t }]) := by
  unfold processFeed
  rw [hth]
  have hfr : fetch_rss_feed o url = some items := hf
  rw [hfr]
  simp only [Bool.false_eq_true, if_neg, not_false_iff, hne]
  constructor
  · intro hcap
    rw [if_neg (by simpa [List.isEmpty_iff] using hcap)]
  · intro hcap
    rw [if_pos (by simpa [List.isEmpty_iff] using hcap)]

theorem sendParts_all_ok (o : Oracles) (l : List String)
    (hok : ∀ p, o.sendOk p = true) :
    sendParts o l = l.map Event.send := by
  induction l with
  | nil => rfl
  | cons p ps ih => simp [sendParts, hok p, ih]

theorem messageParts_ne_nil (s : String) (h : s.data ≠ []) :
    messageParts s ≠ [] := by
  unfold messageParts
  cases hd : s.data with
  | nil => exact absurd hd h
  | cons c rest => simp [hd, chunksAux]

/-- Every feed of a cycle that is not initially throttled is reached and
stamped, whatever the oracles do. -/
theorem runFeeds_visits (cfg : Config) (o : Oracles) (t : ℚ) (u : String) :
    ∀ (urls : List String) (s : Store), urls.Nodup → u ∈ urls →
      throttled cfg t s u = false →
      Event.fetch u ∈ (runFeeds cfg o t urls s).2 ∧
      lookupA (runFeeds cfg o t urls s).1.last_check_times u = some t := by
  intro urls
  induction urls with
  | nil =>
    intro s _ hmem _
    simp at hmem
  | cons v rest ih =>
    intro s hnd hmem hth
    rcases List.mem_cons.mp hmem with he | hmem'
    · subst he
      have h1 := processFeed_fetch_mem cfg o t s u hth
      have h2 := processFeed_lastcheck_self cfg o t s u hth
      have hur : u ∉ rest := (List.nodup_cons.mp hnd).1
      refine ⟨?_, ?_⟩
      · simp only [runFeeds]
        exact List.mem_append.mpr (Or.inl h1)
      · simp only [runFeeds]
        rw [runFeeds_lastcheck_other cfg o t rest _ u hur]
        exact h2
    · have hvu : u ≠ v := by
        rintro rfl
        exact (List.nodup_cons.mp hnd).1 hmem'
      have hpres := processFeed_lastcheck_other cfg o t s v u hvu
      have hth' : throttled cfg t (processFeed cfg o t s v).1 u = false := by
        rw [throttled_congr cfg t s (processFeed cfg o t s v).1 u hpres]
        exact hth
      obtain ⟨ha, hb⟩ := ih (processFeed cfg o t s v).1
        (List.nodup_cons.mp hnd).2 hmem' hth'
      refine ⟨?_, ?_⟩
      · simp only [runFeeds]
        exact List.mem_append.mpr (Or.inr ha)
      · simp only [runFeeds]
        exact hb

/-! ### Claim theorems -/

/-- C1: an identity ever recorded in the seen-set posts map stays
recorded across any number of later cycles and is never piped into the
per-entry pipeline again; moreover the filtering pass itself records
every entry it finds new into the posts map it returns, before any
posting happens. -/
theorem C1_seen_never_reprocessed (cfg : Config) (os : Nat → Oracles)
    (ts : Nat → ℚ) (s : Store) (pid : String) (n : Nat)
    (hid : (lookupA s.posts pid).isSome = true) :
    (lookupA (iterateCycles cfg os ts n s).posts pid).isSome = true ∧
    Event.pipe pid ∉
      (rss_checker cfg (os n) (ts n) (iterateCycles cfg os ts n s)).2 ∧
    ∀ (t : ℚ) (items : List Item) (ps : List (String × SeenRecord)),
      ∀ it ∈ (filterNew t items ps).1,
        (lookupA (filterNew t items ps).2 (postId it)).isSome = true := by
  have hsome : (lookupA (iterateCycles cfg os ts n s).posts pid).isSome
      = true := by
    rw [iterateCycles_posts_mono cfg os ts n s pid hid]
    exact hid
  refine ⟨hsome, ?_, fun t items ps => filterNew_records t items ps⟩
  exact runFeeds_no_pipe cfg (os n) (ts n) cfg.rss_urls _ pid hsome

theorem C1_witness :
    (lookupA (iterateCycles cfgBase (fun _ => oFetchOne) (fun _ => 0) 1
      storeSeen).posts "g1").isSome = true ∧
    Event.pipe "g1" ∉
      (rss_checker cfgBase oFetchOne 0 (iterateCycles cfgBase
        (fun _ => oFetchOne) (fun _ => 0) 1 storeSeen)).2 := by
  have h := C1_seen_never_reprocessed cfgBase (fun _ => oFetchOne)
    (fun _ => 0) storeSeen "g1" 1 rfl
  exact ⟨h.1, h.2.1⟩

/-- C8: failures of the external collaborators (fetch, validation,
transform, publish) are absorbed at their point of occurrence: whatever
the oracles do, the cycle is a total function, every configured
non-throttled feed is still fetched and stamped, and every capped entry
still enters the per-entry pipeline. -/
theorem C8_failures_isolated (cfg : Config) (o : Oracles) (t : ℚ)
    (s : Store) (u : String)
    (hnd : cfg.rss_urls.Nodup) (hmem : u ∈ cfg.rss_urls)
    (hth : throttled cfg t s u = false) :
    Event.fetch u ∈ (rss_checker cfg o t s).2 ∧
    lookupA (rss_checker cfg o t s).1.last_check_times u = some t ∧
    ∀ items : List Item,
      pipeIds (processEntries cfg o items) = items.map postId := by
  obtain ⟨ha, hb⟩ := runFeeds_visits cfg o t u cfg.rss_urls s hnd hmem hth
  exact ⟨ha, hb, fun items => pipeIds_processEntries cfg o items⟩

theorem C8_witness :
    Event.fetch "v" ∈ (rss_checker cfgTwo oAllFail 0 storeEmpty).2 ∧
    lookupA (rss_checker cfgTwo oAllFail 0
      storeEmpty).1.last_check_times "v" = some 0 ∧
    ∀ items : List Item,
      pipeIds (processEntries cfgTwo oAllFail items) = items.map postId :=
  C8_failures_isolated cfgTwo oAllFail 0 storeEmpty "v" (by decide)
    (by decide) rfl

/-- C3: for every feed URL whose recorded last-check timestamp is less
than the configured interval (in minutes) before the cycle time, the
cycle skips the feed entirely: no fetch is performed, the store
(including its `last_check_times` entry) is left untouched, and no event
happens on the feed's behalf. -/
theorem C3_throttled_feed_skipped (cfg : Config) (o : Oracles) (t : ℚ)
    (s : Store) (url : String) (last : ℚ)
    (hl : lookupA s.last_check_times url = some last)
    (hlt : (t - last) / 60 < (cfg.check_interval : ℚ)) :
    processFeed cfg o t s url = (s, []) := by
  unfold processFeed throttled
  rw [hl]
  simp [hlt]

theorem C3_witness :
    processFeed cfgVal oAllFail 600 storeThrottle "u" = (storeThrottle, []) :=
  C3_throttled_feed_skipped cfgVal oAllFail 600 storeThrottle "u" 0 rfl
    (by norm_num [cfgVal])

/-- C9: the deduplication identity of a fetched entry is the
feed-supplied guid when the entry carries one and the entry's link
otherwise, and the novelty filter checks and records under that same
identity. -/
theorem C9_identity_guid_else_link (item : Item) (t : ℚ)
    (ps : List (String × SeenRecord)) :
    (∀ g, item.guid = some g → postId item = g) ∧
    (item.guid = none → postId item = item.link) ∧
    ((lookupA ps (postId item)).isSome = true →
      filterNew t [item] ps = ([], ps)) ∧
    ((lookupA ps (postId item)).isSome = false →
      filterNew t [item] ps =
        ([item], ps ++ [(postId item, ⟨item.title, item.link, t⟩)])) := by
  refine ⟨?_, ?_, ?_, ?_⟩
  · intro g hg; simp [postId, hg]
  · intro hg; simp [postId, hg]
  · intro h; simp [filterNew, h]
  · intro h; simp [filterNew, h]

theorem C9_witness :
    postId itemA = "g1" ∧ postId itemB = "http://b" ∧
    filterNew 0 [itemA] [] = ([itemA], [("g1", ⟨"tA", "http://a", 0⟩)]) := by
  refine ⟨(C9_identity_guid_else_link itemA 0 []).1 "g1" rfl,
    (C9_identity_guid_else_link itemB 0 []).2.1 rfl, ?_⟩
  have h := (C9_identity_guid_else_link itemA 0 []).2.2.2 rfl
  simpa [itemA, postId] using h

/-- C10: because new entries are inserted into the posts map during the
filtering pass before the cap condition is evaluated, the first-run
branch (cap of 3) is taken iff the posts map was empty immediately
before that feed's filtering pass; otherwise the configured per-feed
maximum applies. -/
theorem C10_first_run_branch_iff (cfg : Config) (o : Oracles) (t : ℚ)
    (s : Store) (url : String) (items : List Item)
    (hth : throttled cfg t s url = false)
    (hf : o.fetch url = some items) (hne : items.isEmpty = false) :
    ((filterNew t items s.posts).2.length ≤
        (filterNew t items s.posts).1.length ↔ s.posts = []) ∧
    pipeIds (processFeed cfg o t s url).2 =
      (if s.posts = [] then (filterNew t items s.posts).1.take 3
       else (filterNew t items s.posts).1.take
         cfg.max_posts_per_feed).map postId := by
  constructor
  · have hlen := filterNew_length t items s.posts
    constructor
    · intro hle
      have : s.posts.length = 0 := by omega
      exact List.length_eq_zero.mp this
    · intro he
      rw [hlen, he]; simp
  · rw [processFeed_pipeIds cfg o t s url items hth hf hne, cappedNew_eq]

theorem C10_witness :
    ((filterNew 0 itemsFive storeOld.posts).2.length ≤
        (filterNew 0 itemsFive storeOld.posts).1.length ↔
      storeOld.posts = []) ∧
    pipeIds (processFeed cfgBase oFive 0 storeOld "u").2 =
      (if storeOld.posts = []
       then (filterNew 0 itemsFive storeOld.posts).1.take 3
       else (filterNew 0 itemsFive storeOld.posts).1.take
         cfgBase.max_posts_per_feed).map postId :=
  C10_first_run_branch_iff cfgBase oFive 0 storeOld "u" itemsFive rfl rfl rfl

/-- C5 counterexample: `legacyPostsKeyDoc` is a bare identity-to-record
mapping with no `last_check_times` key, yet `load_processed_posts`
returns it unchanged — without any `last_check_times` key — because the
migration test keys on the presence of a `posts` key, not on
`last_check_times`. -/
theorem C5_counterexample :
    load_processed_posts true (some legacyPostsKeyDoc) = legacyPostsKeyDoc ∧
    lookupA (load_processed_posts true (some legacyPostsKeyDoc))
      "last_check_times" = none ∧
    load_processed_posts true (some legacyPostsKeyDoc) ≠
      [("posts", JVal.jobj legacyPostsKeyDoc),
       ("last_check_times", JVal.jobj [])] := by
  refine ⟨rfl, rfl, ?_⟩
  intro h
  have hlen := congrArg List.length h
  rw [show load_processed_posts true (some legacyPostsKeyDoc) =
    legacyPostsKeyDoc from rfl] at hlen
  simp [legacyPostsKeyDoc] at hlen

/-- C5 amended: `load()` migrates a parsed document exactly when it has
no `posts` key, wrapping it as `{posts: document, last_check_times: {}}`
(so in particular every legacy mapping none of whose identities is the
literal string `"posts"`); a document with a `posts` key is returned
unchanged; a missing file or a read/parse failure yields the empty
store. -/
theorem C5_amended (fields : List (String × JVal))
    (p : Option (List (String × JVal))) :
    (lookupA fields "posts" = none →
      load_processed_posts true (some fields) =
        [("posts", JVal.jobj fields),
         ("last_check_times", JVal.jobj [])]) ∧
    ((lookupA fields "posts").isSome = true →
      load_processed_posts true (some fields) = fields) ∧
    load_processed_posts true none =
      [("posts", JVal.jobj []), ("last_check_times", JVal.jobj [])] ∧
    load_processed_posts false p =
      [("posts", JVal.jobj []), ("last_check_times", JVal.jobj [])] := by
  refine ⟨?_, ?_, rfl, rfl⟩
  · intro h
    simp [load_processed_posts, h]
  · intro h
    simp [load_processed_posts, h]

theorem C5_witness :
    lookupA legacyDoc "posts" = none ∧
    load_processed_posts true (some legacyDoc) =
      [("posts", JVal.jobj legacyDoc),
       ("last_check_times", JVal.jobj [])] :=
  ⟨rfl, (C5_amended legacyDoc none).1 rfl⟩

/-- C6: a message longer than the 2000-character Discord limit is split
into sequential chunks of at most 2000 characters, sent in order, whose
concatenation is the original text; a 4500-character text yields exactly
3 chunks. -/
theorem C6_long_message_chunked (o : Oracles) (message : String)
    (hch : o.channelFound = true) (hok : ∀ p, o.sendOk p = true)
    (hlen : 2000 < message.length) :
    send_to_discord o message = (messageParts message).map Event.send ∧
    (∀ part ∈ messageParts message, part.length ≤ 2000) ∧
    String.join (messageParts message) = message ∧
    (message.length = 4500 → (messageParts message).length = 3) := by
  refine ⟨?_, messageParts_length_le message, messageParts_join message, ?_⟩
  · unfold send_to_discord
    rw [hch, if_pos rfl, if_pos hlen]
    exact sendParts_all_ok o _ hok
  · intro h45
    rw [messageParts_count, h45]

theorem C6_witness :
    send_to_discord oAllFail (String.mk (List.replicate 4500 'a')) =
      (messageParts (String.mk (List.replicate 4500 'a'))).map
        Event.send ∧
    (∀ part ∈ messageParts (String.mk (List.replicate 4500 'a')),
      part.length ≤ 2000) ∧
    String.join (messageParts (String.mk (List.replicate 4500 'a'))) =
      String.mk (List.replicate 4500 'a') ∧
    ((String.mk (List.replicate 4500 'a')).length = 4500 →
      (messageParts (String.mk (List.replicate 4500 'a'))).length = 3) :=
  C6_long_message_chunked oAllFail (String.mk (List.replicate 4500 'a'))
    rfl (fun _ => rfl)
    (by
      rw [show (String.mk (List.replicate 4500 'a')).length =
        (List.replicate 4500 'a').length from rfl, List.length_replicate]
      norm_num)

/-- C7 counterexample: with a single configured feed whose fetch fails,
the cycle mutates the store (it records the feed's last-check timestamp)
and then moves on without a single save: the mutation is not persisted. -/
theorem C7_counterexample :
    (rss_checker cfgVal oAllFail 0 storeEmpty).1 ≠ storeEmpty ∧
    (rss_checker cfgVal oAllFail 0 storeEmpty).1.last_check_times =
      [("u", 0)] ∧
    saveCount (rss_checker cfgVal oAllFail 0 storeEmpty).2 = 0 := by
  refine ⟨by decide, rfl, rfl⟩

/-- C7 amended: when a feed's fetch succeeds with entries, the driver
persists before moving on: with surviving entries the trace is the
fetch, the per-entry events, a save of the posts-mutated store, the
last-check update and a save of the final store; with no surviving
entries a single save of the final store follows the last-check update.
(The fetch-failure/empty path updates the last-check timestamp without
any save; see the counterexample.) -/
theorem C7_amended (cfg : Config) (o : Oracles) (t : ℚ) (s : Store)
    (url : String) (items : List Item)
    (hth : throttled cfg t s url = false)
    (hf : o.fetch url = some items) (hne : items.isEmpty = false) :
    (processFeed cfg o t s url).1 =
      { posts := (filterNew t items s.posts).2,
        last_check_times := setA s.last_check_times url t } ∧
    (cappedNew cfg t s.posts items ≠ [] →
      (processFeed cfg o t s url).2 =
        Event.fetch url ::
          processEntries cfg o (cappedNew cfg t s.posts items) ++
          [Event.save { posts := (filterNew t items s.posts).2,
                        last_check_times := s.last_check_times },
           Event.save (processFeed cfg o t s url).1]) ∧
    (cappedNew cfg t s.posts items = [] →
      (processFeed cfg o t s url).2 =
        [Event.fetch url, Event.save (processFeed cfg o t s url).1]) := by
  have hs := processFeed_store_main cfg o t s url items hth hf hne
  have ht := processFeed_trace_main cfg o t s url items hth hf hne
  refine ⟨hs, ?_, ?_⟩
  · intro hcap
    rw [hs]
    exact ht.1 hcap
  · intro hcap
    rw [hs]
    exact ht.2 hcap

theorem C7_witness :
    (processFeed cfgBase oFive 0 storeOld "u").1 =
      { posts := (filterNew 0 itemsFive storeOld.posts).2,
        last_check_times := setA storeOld.last_check_times "u" 0 } :=
  (C7_amended cfgBase oFive 0 storeOld "u" itemsFive rfl rfl rfl).1

/-- A found channel with all sends succeeding delivers at least one part
of any non-empty message. -/
theorem sendCount_send_to_discord_pos (o : Oracles) (m : String)
    (hch : o.channelFound = true) (hok : ∀ p, o.sendOk p = true)
    (hm : m.data ≠ []) : sendCount (send_to_discord o m) ≠ 0 := by
  unfold send_to_discord
  rw [hch, if_pos rfl]
  by_cases hl : 2000 < m.length
  · rw [if_pos hl, sendParts_all_ok o _ hok]
    have hne := messageParts_ne_nil m hm
    cases hmp : messageParts m with
    | nil => exact absurd hmp hne
    | cons p ps => simp [sendCount, List.countP_cons]
  · rw [if_neg hl, sendParts_all_ok o _ hok]
    simp [sendCount, List.countP_cons]

/-- C4 counterexample: for an entry titled `"I apologize"` the failed
transformation produces the deterministic fallback, but the fallback
itself matches the error-message signature, so the entry is skipped and
nothing is sent: the fallback is not published. -/
theorem C4_counterexample :
    process_with_ai oAllFail "I apologize" "body" "http://x" =
      fallbackMessage "I apologize" "body" "http://x" ∧
    is_error_message (fallbackMessage "I apologize" "body" "http://x") =
      true ∧
    processEntry cfgBase oAllFail itemApology = [Event.pipe "g"] ∧
    sendCount (processEntry cfgBase oAllFail itemApology) = 0 :=
  ⟨rfl, by decide, by decide, by decide⟩

/-- C4 amended: when the transformation fails, the pipeline substitutes
the deterministic fallback — which contains the title, the truncated
body and the link — and still publishes it, provided validation did not
already skip the entry and the fallback itself does not match the
error-message signature. -/
theorem C4_fallback_published (cfg : Config) (o : Oracles) (item : Item)
    (hval : cfg.enable_validation = true →
      (validate_content o item.title (entryContent item) item.link).1 =
        true)
    (hai : o.ai item.title (entryContent item) item.link = none)
    (herr : is_error_message
      (fallbackMessage item.title (entryContent item) item.link) = false)
    (hch : o.channelFound = true) (hok : ∀ p, o.sendOk p = true) :
    process_with_ai o item.title (entryContent item) item.link =
      fallbackMessage item.title (entryContent item) item.link ∧
    processEntry cfg o item =
      Event.pipe (postId item) ::
        send_to_discord o
          (fallbackMessage item.title (entryContent item) item.link) ∧
    sendCount (processEntry cfg o item) ≠ 0 ∧
    (∃ a b, (fallbackMessage item.title (entryContent item) item.link).data
      = a ++ item.title.data ++ b) ∧
    (∃ a b, (fallbackMessage item.title (entryContent item) item.link).data
      = a ++ (strTake (entryContent item) 500).data ++ b) ∧
    (∃ a b, (fallbackMessage item.title (entryContent item) item.link).data
      = a ++ item.link.data ++ b) := by
  have hpai : process_with_ai o item.title (entryContent item) item.link =
      fallbackMessage item.title (entryContent item) item.link := by
    simp [process_with_ai, hai]
  have hdata :
      (fallbackMessage item.title (entryContent item) item.link).data =
        ("🔥 **" : String).data ++ (item.title.data ++
          (("**\n\n" : String).data ++
            ((strTake (entryContent item) 500).data ++
              (("...\n\n🔗 Read more: " : String).data ++
                item.link.data)))) := by
    simp [fallbackMessage, string_data_append]
  have hfb : (fallbackMessage item.title (entryContent item)
      item.link).data ≠ [] := by
    intro h
    rw [hdata] at h
    have h1 := (List.append_eq_nil.mp h).1
    exact absurd h1 (by decide)
  have hpe : processEntry cfg o item =
      Event.pipe (postId item) ::
        send_to_discord o
          (fallbackMessage item.title (entryContent item) item.link) := by
    unfold processEntry
    rw [hpai, herr]
    cases hev : cfg.enable_validation with
    | false => simp
    | true => simp [hval hev]
  refine ⟨hpai, hpe, ?_, ?_, ?_, ?_⟩
  · rw [hpe]
    have := sendCount_send_to_discord_pos o _ hch hok hfb
    simpa [sendCount, List.countP_cons] using this
  · exact ⟨("🔥 **" : String).data,
      ("**\n\n" : String).data ++ ((strTake (entryContent item) 500).data ++
        (("...\n\n🔗 Read more: " : String).data ++ item.link.data)),
      by rw [hdata]; simp⟩
  · exact ⟨("🔥 **" : String).data ++ item.title.data ++
      ("**\n\n" : String).data,
      ("...\n\n🔗 Read more: " : String).data ++ item.link.data,
      by rw [hdata]; simp⟩
  · exact ⟨("🔥 **" : String).data ++ item.title.data ++
      ("**\n\n" : String).data ++ (strTake (entryContent item) 500).data ++
      ("...\n\n🔗 Read more: " : String).data, [], by rw [hdata]; simp⟩

theorem C4_witness :
    sendCount (processEntry cfgBase oAllFail itemHello) ≠ 0 :=
  (C4_fallback_published cfgBase oAllFail itemHello
    (fun hv => nomatch hv) rfl (by decide) rfl (fun _ => rfl)).2.2.1

/-- With validation off and a transformation that yields a short,
non-error reply the channel accepts, one entry produces exactly one
send. -/
theorem sendCount_processEntry_success (cfg : Config) (o : Oracles)
    (item : Item) (hv : cfg.enable_validation = false)
    (hch : o.channelFound = true)
    (hm : ∃ m, o.ai item.title (entryContent item) item.link = some m ∧
      is_error_message m = false ∧ m.length ≤ 2000 ∧ o.sendOk m = true) :
    sendCount (processEntry cfg o item) = 1 := by
  obtain ⟨m, hai, herr, hlen, hok⟩ := hm
  have hpai : process_with_ai o item.title (entryContent item) item.link =
      m := by
    simp [process_with_ai, hai]
  unfold processEntry
  rw [hv, hpai, herr]
  unfold send_to_discord
  rw [hch, if_pos rfl, if_neg (Nat.not_lt.mpr hlen)]
  simp [sendParts, hok, sendCount, List.countP_cons]

theorem sendCount_processEntries_success (cfg : Config) (o : Oracles)
    (items : List Item) (hv : cfg.enable_validation = false)
    (hch : o.channelFound = true)
    (hm : ∀ a b c, ∃ m, o.ai a b c = some m ∧ is_error_message m = false ∧
      m.length ≤ 2000 ∧ o.sendOk m = true) :
    sendCount (processEntries cfg o items) = items.length := by
  induction items with
  | nil => simp [processEntries, sendCount]
  | cons item rest ih =>
    rw [processEntries, sendCount_append,
      sendCount_processEntry_success cfg o item hv hch (hm _ _ _), ih]
    simp [Nat.add_comm]

/-- Under the same success assumptions, a successful feed evaluation
sends exactly one message per capped entry. -/
theorem processFeed_sendCount_success (cfg : Config) (o : Oracles)
    (t : ℚ) (s : Store) (url : String) (items : List Item)
    (hth : throttled cfg t s url = false)
    (hf : o.fetch url = some items) (hne : items.isEmpty = false)
    (hv : cfg.enable_validation = false) (hch : o.channelFound = true)
    (hm : ∀ a b c, ∃ m, o.ai a b c = some m ∧ is_error_message m = false ∧
      m.length ≤ 2000 ∧ o.sendOk m = true) :
    sendCount (processFeed cfg o t s url).2 =
      (cappedNew cfg t s.posts items).length := by
  have ht := processFeed_trace_main cfg o t s url items hth hf hne
  by_cases hcap : cappedNew cfg t s.posts items = []
  · rw [ht.2 hcap, hcap]
    simp [sendCount, List.countP_cons]
  · rw [ht.1 hcap]
    have hc := sendCount_processEntries_success cfg o
      (cappedNew cfg t s.posts items) hv hch hm
    simp only [sendCount, List.countP_cons, List.countP_append] at hc ⊢
    simp [hc]

/-- C2: on the first evaluation of the whole store (empty posts map) a
feed with K new entries pipelines exactly the first min(K,3) in feed
order — so at most min(K,3) are posted — and records all K as seen; in
steady state with more new entries than the configured per-feed maximum,
exactly that maximum (the first ones in feed order) are pipelined, and
when validation is off and transformation and publishing succeed exactly
that many messages are sent, while all new entries are recorded as
seen. -/
theorem C2_first_run_and_steady_caps (cfg : Config) (o : Oracles) (t : ℚ)
    (s : Store) (url : String) (items : List Item)
    (hth : throttled cfg t s url = false)
    (hf : o.fetch url = some items) (hne : items.isEmpty = false) :
    (s.posts = [] →
      pipeIds (processFeed cfg o t s url).2 =
        ((filterNew t items s.posts).1.take 3).map postId ∧
      ∀ it ∈ (filterNew t items s.posts).1,
        (lookupA (processFeed cfg o t s url).1.posts
          (postId it)).isSome = true) ∧
    (s.posts ≠ [] →
      cfg.max_posts_per_feed < (filterNew t items s.posts).1.length →
      pipeIds (processFeed cfg o t s url).2 =
        ((filterNew t items s.posts).1.take
          cfg.max_posts_per_feed).map postId ∧
      (pipeIds (processFeed cfg o t s url).2).length =
        cfg.max_posts_per_feed ∧
      ((cfg.enable_validation = false ∧ o.channelFound = true ∧
        ∀ a b c, ∃ m, o.ai a b c = some m ∧ is_error_message m = false ∧
          m.length ≤ 2000 ∧ o.sendOk m = true) →
        sendCount (processFeed cfg o t s url).2 =
          cfg.max_posts_per_feed) ∧
      ∀ it ∈ (filterNew t items s.posts).1,
        (lookupA (processFeed cfg o t s url).1.posts
          (postId it)).isSome = true) := by
  have hstore := processFeed_store_main cfg o t s url items hth hf hne
  have hpids := processFeed_pipeIds cfg o t s url items hth hf hne
  have hcap := cappedNew_eq cfg t s.posts items
  have hseen : ∀ it ∈ (filterNew t items s.posts).1,
      (lookupA (processFeed cfg o t s url).1.posts
        (postId it)).isSome = true := by
    intro it hit
    rw [hstore]
    exact filterNew_records t items s.posts it hit
  constructor
  · intro hempty
    rw [hcap, if_pos hempty] at hpids
    exact ⟨hpids, hseen⟩
  · intro hnonempty hlt
    rw [hcap, if_neg hnonempty] at hpids
    have hclen : (cappedNew cfg t s.posts items).length =
        cfg.max_posts_per_feed := by
      rw [hcap, if_neg hnonempty, List.length_take]
      exact Nat.min_eq_left (Nat.le_of_lt hlt)
    refine ⟨hpids, ?_, ?_, hseen⟩
    · rw [hpids, List.length_map, List.length_take]
      exact Nat.min_eq_left (Nat.le_of_lt hlt)
    · rintro ⟨hv, hch, hm⟩
      rw [processFeed_sendCount_success cfg o t s url items hth hf hne
        hv hch hm, hclen]

theorem C2_witness :
    pipeIds (processFeed cfgBase oFive 0 storeOld "u").2 =
      ["g1", "g2"] ∧
    sendCount (processFeed cfgBase oFive 0 storeOld "u").2 = 2 ∧
    (lookupA (processFeed cfgBase oFive 0 storeOld "u").1.posts
      "g5").isSome = true := by
  have h := (C2_first_run_and_steady_caps cfgBase oFive 0 storeOld "u"
    itemsFive rfl rfl rfl).2 (by decide) (by decide)
  refine ⟨?_, ?_, ?_⟩
  · rw [h.1]
    decide
  · rw [h.2.2.1 ⟨rfl, rfl, fun a b c =>
      ⟨"ok", rfl, by decide, by decide, rfl⟩⟩]
    rfl
  · refine h.2.2.2 ⟨some "g5", "t5", "l5", some "d5", none⟩ ?_
    decide

end RSSBot
